import Mathlib

/-!
Verification of the sjson encoding core: a shallow embedding of the
repository's numeric rendering/parsing primitives, string escaping,
struct encoding, and buffer-stream management, with theorems checking
the natural-language specification against the code.

Bytes are modelled as `Nat` (Go `byte` values), buffers as `List Nat`
(content of a `[]byte`), `int64`/`uint64` as `Int`/`Nat` with explicit
`% 2 ^ 64` wrapping where Go overflow semantics matter, and fallible
functions return `Except`.
-/

namespace SJson

/-! ### Decimal digit strings (reference rendering and the `digits` table)

`decBytesAux` is a fuel-based total encoding of the repeated-division
digit loop; fuel `n` always suffices since the argument shrinks by `/ 10`
each step, and the fuel-0 fallback agrees with the final iteration. -/

/-- Most-significant-first decimal digit bytes of `n` (worker with fuel). -/
def decBytesAux : Nat → Nat → List Nat → List Nat
  | 0, n, acc => (48 + n % 10) :: acc
  | fuel + 1, n, acc =>
    if n < 10 then (48 + n) :: acc
    else decBytesAux fuel (n / 10) ((48 + n % 10) :: acc)

/-- Decimal digit-byte string of `n`, e.g. `decBytes 105 = [49, 48, 53]`.
This is both the reference rendering and the content of the process-start
`digits` table (`digits[i] = strconv.AppendInt(nil, i, 10)` for `i < 10000`),
and the behaviour of `strconv.AppendUint` in base 10. -/
def decBytes (n : Nat) : List Nat := decBytesAux n n []

/-- The `singleDigits` table: `singleDigits[u] = '0' + u` for `u < 10`. -/
def singleDigits (u : Nat) : Nat := 48 + u

/-! ### appendUintOptimized (src/unnamed/part_001 lines 526-572) -/

/-- The digit-count loop of `appendUintOptimized`:
`for { digitCount++; temp /= 10; if temp == 0 { break } }` (worker with fuel). -/
def digitCountAux : Nat → Nat → Nat
  | 0, _ => 1
  | fuel + 1, u => if u / 10 = 0 then 1 else 1 + digitCountAux fuel (u / 10)

/-- Number of decimal digits as computed by the Go loop. -/
def digitCountGo (u : Nat) : Nat := digitCountAux u u

/-- The right-to-left fill loop `for u >= 100 { ... }` of `appendUintOptimized`.
`arr` is the freshly appended zero-filled span (positions are relative to the
original length of `dst`); `pos` is the write cursor.  Each iteration takes
`q := u / 100`, `r := u % 100`; for `r < 10` the code writes the single byte
`singleDigits[r]` and moves `pos` by one, otherwise it writes the two bytes
`digits[r][1]`, `digits[r][0]` and moves `pos` by two.  Returns the final
`(u, pos, arr)`.  Fuel `u` suffices since `u` shrinks by `/ 100` per step. -/
def optLoop : Nat → Nat → Nat → List Nat → Nat × Nat × List Nat
  | 0, u, pos, arr => (u, pos, arr)
  | fuel + 1, u, pos, arr =>
    if u < 100 then (u, pos, arr)
    else
      let q := u / 100
      let r := u % 100
      if r < 10 then optLoop fuel q (pos - 1) (arr.set pos (singleDigits r))
      else
        optLoop fuel q (pos - 2)
          ((arr.set pos ((decBytes r).getD 1 0)).set (pos - 1) ((decBytes r).getD 0 0))

/-- `appendUintOptimized(dst, u)`: pre-computes the digit count, appends a
zero-filled span (`append(dst, make([]byte, digitCount)...)`; Go's `make`
zero-fills), runs the two-digit fill loop right to left, then writes the
remaining one or two leading digits. -/
def appendUintOptimized (dst : List Nat) (u : Nat) : List Nat :=
  let digitCount := digitCountGo u
  let arr0 := List.replicate digitCount 0
  let t := optLoop u u (digitCount - 1) arr0
  let u2 := t.1
  let pos := t.2.1
  let arr := t.2.2
  let arr2 :=
    if 10 ≤ u2 then
      (arr.set pos ((decBytes u2).getD 1 0)).set (pos - 1) ((decBytes u2).getD 0 0)
    else arr.set pos (singleDigits u2)
  dst ++ arr2

/-- `appendUint(dst, u, base)` (src/unnamed/part_001 lines 491-509):
single-digit lookup below 10, `digits` table below 10 000, the optimized
two-digit loop below 100 000 000, otherwise `strconv.AppendUint`.  The
repository only ever calls this with `base = 10`, and the two table paths
ignore `base`; the `strconv.AppendUint` fallback is modelled for base 10
(the only base exercised here) as the exact decimal digit string. -/
def appendUint (dst : List Nat) (u : Nat) (_base : Nat) : List Nat :=
  if u < 10 then dst ++ [singleDigits u]
  else if u < 10000 then dst ++ decBytes u
  else if u < 100000000 then appendUintOptimized dst u
  else dst ++ decBytes u

/-- Go's `uint64(-i)` for a negative `int64 i`: the negation wraps in
`int64` (relevant only at `i = MinInt64`) and the result is reinterpreted
as `uint64`; the composite equals `(-i) % 2 ^ 64`. -/
def uint64OfNeg (i : Int) : Nat := ((-i) % (2 : Int) ^ 64).toNat

/-- `appendInt(dst, i, base)` (src/unnamed/part_001 lines 514-520):
emit `'-'` for a negative value, then render `uint64(-i)` (resp.
`uint64(i)`). -/
def appendInt (dst : List Nat) (i : Int) (base : Nat) : List Nat :=
  if i < 0 then appendUint (dst ++ [45]) (uint64OfNeg i) base
  else appendUint dst i.toNat base

/-! ### Byte-level integer parsing (src/unnamed/part_001 lines 219-361) -/

/-- `math.MaxInt64`. -/
def maxInt64 : Int := 9223372036854775807

/-- `math.MinInt64`. -/
def minInt64 : Int := -9223372036854775808

/-- `math.MaxUint64`. -/
def maxUint64 : Nat := 18446744073709551615

/-- Go `int64` two's-complement wrapping of an unbounded integer. -/
def int64wrap (x : Int) : Int := (x + 2 ^ 63) % 2 ^ 64 - 2 ^ 63

/-- The digit-classification switch shared by the three byte parsers:
`'0'-'9'` map to 0-9, `'a'-'z'` to 10-35, `'A'-'Z'` to 10-35, anything
else is an invalid digit character. -/
def digitVal (d : Nat) : Option Nat :=
  if 48 ≤ d ∧ d ≤ 57 then some (d - 48)
  else if 97 ≤ d ∧ d ≤ 122 then some (d - 97 + 10)
  else if 65 ≤ d ∧ d ≤ 90 then some (d - 65 + 10)
  else none

/-- Outcome of the accumulation loop of `parseIntFromBytes`: a final value,
an early saturating return, or an error. -/
inductive IntLoopOut where
  | val (n : Int)
  | saturate
  | err (msg : String)

/-- The digit loop of `parseIntFromBytes`: classify the digit, reject a
digit at or above the base, check `n > MaxInt64 / int64(base)` and return
saturating if so, otherwise accumulate `n = n*base + v` with `int64`
wrapping (Go wraps `n *= base` and `n += v` separately; wrapping once
after the combined expression is the same function `mod 2 ^ 64`). -/
def parseIntLoop (base : Nat) : List Nat → Int → IntLoopOut
  | [], n => .val n
  | d :: rest, n =>
    match digitVal d with
    | none => .err "invalid digit character"
    | some v =>
      if base ≤ v then .err "digit out of base range"
      else if maxInt64 / (base : Int) < n then .saturate
      else parseIntLoop base rest (int64wrap (n * base + v))

/-- `parseIntFromBytes(b, base, bitSize)` (src/unnamed/part_001 lines
219-294): optional `+`/`-` sign, at least one digit, accumulation with
the saturating overflow check, negation (which wraps in `int64`), and
the optional 8/16/32 bit-width range check. -/
def parseIntFromBytes (b : List Nat) (base : Nat) (bitSize : Nat) : Except String Int :=
  match b with
  | [] => .error "empty byte slice"
  | b0 :: rest =>
    let negative := b0 = 45
    let ds := if b0 = 43 ∨ b0 = 45 then rest else b0 :: rest
    match ds with
    | [] => .error "invalid number format"
    | _ :: _ =>
      match parseIntLoop base ds 0 with
      | .err m => .error m
      | .saturate => if negative then .ok minInt64 else .ok maxInt64
      | .val n0 =>
        let n := if negative then int64wrap (-n0) else n0
        if bitSize = 8 then
          if n < -128 ∨ 127 < n then .error "value out of int8 range" else .ok n
        else if bitSize = 16 then
          if n < -32768 ∨ 32767 < n then .error "value out of int16 range" else .ok n
        else if bitSize = 32 then
          if n < -2147483648 ∨ 2147483647 < n then .error "value out of int32 range" else .ok n
        else .ok n

/-- Outcome of the accumulation loop of `parseUintFromBytes`. -/
inductive UintLoopOut where
  | val (n : Nat)
  | saturate
  | err (msg : String)

/-- The digit loop of `parseUintFromBytes`: same digit classification,
overflow check `n > MaxUint64 / uint64(base)` returning saturating, and
`uint64`-wrapping accumulation. -/
def parseUintLoop (base : Nat) : List Nat → Nat → UintLoopOut
  | [], n => .val n
  | d :: rest, n =>
    match digitVal d with
    | none => .err "invalid digit character"
    | some v =>
      if base ≤ v then .err "digit out of base range"
      else if maxUint64 / base < n then .saturate
      else parseUintLoop base rest ((n * base + v) % 2 ^ 64)

/-- `parseUintFromBytes(b, base, bitSize)` (src/unnamed/part_001 lines
297-361): optional `+` sign only, at least one digit, saturating overflow
check, and the optional 8/16/32 bit-width range check. -/
def parseUintFromBytes (b : List Nat) (base : Nat) (bitSize : Nat) : Except String Nat :=
  match b with
  | [] => .error "empty byte slice"
  | b0 :: rest =>
    let ds := if b0 = 43 then rest else b0 :: rest
    match ds with
    | [] => .error "invalid number format"
    | _ :: _ =>
      match parseUintLoop base ds 0 with
      | .err m => .error m
      | .saturate => .ok maxUint64
      | .val n =>
        if bitSize = 8 then
          if 255 < n then .error "value out of uint8 range" else .ok n
        else if bitSize = 16 then
          if 65535 < n then .error "value out of uint16 range" else .ok n
        else if bitSize = 32 then
          if 4294967295 < n then .error "value out of uint32 range" else .ok n
        else .ok n

/-! ### Claim C1 -/

/-- **C1** (code bug): the claim says `appendUint(dst, u, 10)` appends exactly
the decimal digit string of `u` for every `uint64`.  It does not: the
two-digit fill loop of `appendUintOptimized` writes only one byte when a
`u % 100` chunk is below 10, losing the required `'0'` padding, so the
very first value routed to it, `u = 10000`, renders as the five bytes
`[0, 0, '1', '0', '0']` — two NUL bytes followed by `"100"` — instead of
`"10000"`.  (The boundary values the claim also names are rendered by the
`strconv` path and are in fact exact: `MinInt64` and `MaxUint64` render
to their decimal strings, as the last two conjuncts show.) -/
theorem appendUint_drops_zero_padding_at_10000 :
    appendUint [] 10000 10 = [0, 0, 49, 48, 48]
    ∧ decBytes 10000 = [49, 48, 48, 48, 48]
    ∧ appendUint [] 10000 10 ≠ decBytes 10000
    ∧ appendInt [] minInt64 10 = 45 :: decBytes 9223372036854775808
    ∧ appendUint [] maxUint64 10 = decBytes maxUint64 := by
  refine ⟨by decide, by decide, by decide, by decide, by decide⟩

/-! ### Claim C2 -/

/-- **C2** (code bug): the claim says an accumulated value exceeding the
64-bit range makes `parseIntFromBytes` return `MaxInt64` (`MinInt64` when
negative) and `parseUintFromBytes` return `MaxUint64`, saturating and never
wrapping.  The overflow check `n > MaxInt64/base` misses the final-digit
overflow when `n` equals the cutoff exactly: parsing `"9223372036854775808"`
(`MaxInt64 + 1`) wraps to `MinInt64` with no error, parsing
`"-9223372036854775809"` (`MinInt64 - 1`) wraps to `MaxInt64`, and
`parseUintFromBytes` on `"18446744073709551616"` (`MaxUint64 + 1`) wraps to
`0` — while the one-digit-longer string `"92233720368547758070"` does
saturate, showing the check works except at the cutoff boundary. -/
theorem parseInt_wraps_at_cutoff_boundary :
    parseIntFromBytes [57, 50, 50, 51, 51, 55, 50, 48, 51, 54, 56, 53, 52, 55, 55, 53, 56, 48, 56]
        10 64 = .ok minInt64
    ∧ parseIntFromBytes
        [45, 57, 50, 50, 51, 51, 55, 50, 48, 51, 54, 56, 53, 52, 55, 55, 53, 56, 48, 57]
        10 64 = .ok maxInt64
    ∧ parseUintFromBytes
        [49, 56, 52, 52, 54, 55, 52, 52, 48, 55, 51, 55, 48, 57, 53, 53, 49, 54, 49, 54]
        10 64 = .ok 0
    ∧ parseIntFromBytes
        [57, 50, 50, 51, 51, 55, 50, 48, 51, 54, 56, 53, 52, 55, 55, 53, 56, 48, 55, 48]
        10 64 = .ok maxInt64 := by
  exact ⟨rfl, rfl, rfl, rfl⟩

/-! ### Byte-level float parsing (src/unnamed/part_001 lines 364-472)

The Go function accumulates a `float64`; the claim settled here (C7) is
purely about success/failure/crash, which never depends on the accumulated
value, so the value is carried exactly along the source's expression
structure but over `ℚ` (`n*10 + d`, `decimal * 0.1` weights, `×10`/`÷10`
exponent application).  Each loop recurses with fuel `len(b) - i`, which is
exactly the number of iterations left, so the fuel-0 case is the loop's
normal `i < len(b)` exit. -/

/-- Result of `parseFloatFromBytes`: a value, an error return, or a Go
runtime panic (index out of range). -/
inductive FloatOut where
  | ok (q : ℚ)
  | err (msg : String)
  | crash

/-- The integer-part loop: stop after `'.'` (consuming it), stop at
`'e'`/`'E'` (not consuming it), accumulate a digit, reject anything else.
Returns `(i, n, sawDigit)`. -/
def floatIntLoop (b : List Nat) : Nat → Nat → ℚ → Bool → Except String (Nat × ℚ × Bool)
  | 0, i, n, saw => .ok (i, n, saw)
  | fuel + 1, i, n, saw =>
    let c := b.getD i 0
    if c = 46 then .ok (i + 1, n, saw)
    else if c = 101 ∨ c = 69 then .ok (i, n, saw)
    else if 48 ≤ c ∧ c ≤ 57 then floatIntLoop b fuel (i + 1) (n * 10 + (c - 48 : Nat)) true
    else .error "invalid digit character"

/-- The fractional-part loop: stop at `'e'`/`'E'`, add `decimal * d` and
shrink the weight by `0.1` for a digit, reject anything else. -/
def floatFracLoop (b : List Nat) :
    Nat → Nat → ℚ → ℚ → Bool → Except String (Nat × ℚ × Bool)
  | 0, i, n, _, saw => .ok (i, n, saw)
  | fuel + 1, i, n, dec, saw =>
    let c := b.getD i 0
    if c = 101 ∨ c = 69 then .ok (i, n, saw)
    else if 48 ≤ c ∧ c ≤ 57 then
      floatFracLoop b fuel (i + 1) (n + dec * (c - 48 : Nat)) (dec * (1 / 10)) true
    else .error "invalid digit character"

/-- The exponent-digit loop: accumulate decimal digits, reject anything
else (`exp` is a Go `int`; exponents large enough to overflow it are
irrelevant to the settled claim and it is carried as `Nat`). -/
def floatExpLoop (b : List Nat) : Nat → Nat → Nat → Except String Nat
  | 0, _, e => .ok e
  | fuel + 1, i, e =>
    let c := b.getD i 0
    if 48 ≤ c ∧ c ≤ 57 then floatExpLoop b fuel (i + 1) (e * 10 + (c - 48))
    else .error "invalid exponent character"

/-- The tail of `parseFloatFromBytes` after the integer/fraction parts:
the `sawDigit` requirement, the optional exponent section with its two
malformed-exponent checks, exponent application (`×10`/`÷10` repeated
`exp` times, i.e. `* 10 ^ exp` / `/ 10 ^ exp` over `ℚ`), negation, and the
`bitSize == 32` narrowing (a value conversion with no failure mode,
modelled as the identity on the carried value). -/
def parseFloatTail (b : List Nat) (_bitSize : Nat) (negative : Bool) (i : Nat) (n : ℚ)
    (saw : Bool) : FloatOut :=
  if saw = false then .err "invalid number format"
  else
    if i < b.length ∧ (b.getD i 0 = 101 ∨ b.getD i 0 = 69) then
      let i1 := i + 1
      if b.length ≤ i1 then .err "invalid exponent format"
      else
        let c1 := b.getD i1 0
        let expNeg := c1 = 45
        let i2 := if c1 = 43 ∨ c1 = 45 then i1 + 1 else i1
        if b.length ≤ i2 ∨ b.getD i2 0 < 48 ∨ 57 < b.getD i2 0 then
          .err "invalid exponent format"
        else
          match floatExpLoop b (b.length - i2) i2 0 with
          | .error m => .err m
          | .ok e =>
            let n1 := if expNeg then n / 10 ^ e else n * 10 ^ e
            .ok (if negative then -n1 else n1)
    else .ok (if negative then -n else n)

/-- `parseFloatFromBytes(b, bitSize)`: empty check, sign, integer part,
then the fraction gate `if i < len(b) && b[i-1] == '.'` — when the integer
loop exits at position `i = 0` (a leading `'e'`/`'E'` with no sign) the
lookback `b[i-1]` indexes out of range and Go panics, modelled as
`FloatOut.crash` — then fraction part and the shared tail. -/
def parseFloatFromBytes (b : List Nat) (bitSize : Nat) : FloatOut :=
  match b with
  | [] => .err "empty byte slice"
  | b0 :: _ =>
    let negative := b0 = 45
    let i0 := if b0 = 43 ∨ b0 = 45 then 1 else 0
    if b.length ≤ i0 then .err "invalid number format"
    else
      match floatIntLoop b (b.length - i0) i0 0 false with
      | .error m => .err m
      | .ok (i1, n1, saw1) =>
        if i1 < b.length then
          if i1 = 0 then .crash
          else if b.getD (i1 - 1) 0 = 46 then
            match floatFracLoop b (b.length - i1) i1 n1 (1 / 10) saw1 with
            | .error m => .err m
            | .ok (i2, n2, saw2) => parseFloatTail b bitSize negative i2 n2 saw2
          else parseFloatTail b bitSize negative i1 n1 saw1
        else parseFloatTail b bitSize negative i1 n1 saw1

/-! ### Claim C7 -/

/-- **C7** (code bug): the claim says `parseFloatFromBytes` returns an
explicit error — and never crashes — on every input.  The named error
cases do error out (empty input, bare `'+'`/`'-'`, trailing `'e'`, and an
exponent sign with no digit, shown in the last four conjuncts), but the
universal no-panic part fails: on input `"e1"` the integer-part loop exits
at `i = 0` and the fraction gate `if i < len(b) && b[i-1] == '.'`
evaluates `b[-1]`, an index-out-of-range runtime panic. -/
theorem parseFloat_crashes_on_leading_e :
    parseFloatFromBytes [101, 49] 64 = .crash
    ∧ parseFloatFromBytes [] 64 = .err "empty byte slice"
    ∧ parseFloatFromBytes [43] 64 = .err "invalid number format"
    ∧ parseFloatFromBytes [45] 64 = .err "invalid number format"
    ∧ parseFloatFromBytes [49, 101] 64 = .err "invalid exponent format"
    ∧ parseFloatFromBytes [49, 101, 45] 64 = .err "invalid exponent format" := by
  exact ⟨rfl, rfl, rfl, rfl, rfl, rfl⟩

/-! ### Shared literal constants -/

/-- Modelled from the spec: the shared literal constant `nullString` is
declared in a repository file not present under `src/`; the spec fixes it
as "the 4-character null literal", i.e. `"null"`. -/
def nullString : List Nat := [110, 117, 108, 108]

/-- Modelled from the spec: the shared literal constant `trueString`
(`"true"`), declared outside `src/`. -/
def trueString : List Nat := [116, 114, 117, 101]

/-- Modelled from the spec: the shared literal constant `falseString`
(`"false"`), declared outside `src/`. -/
def falseString : List Nat := [102, 97, 108, 115, 101]

/-- Modelled from the spec: the shared literal constant `emptyString` is
declared outside `src/`; the spec fixes it as "the two-character empty
string literal", i.e. `"\x22\x22"`. -/
def emptyString : List Nat := [34, 34]

/-! ### String escaping (src/sjson_encode_string.go) -/

/-- The `safeSet` table after `init()`: the literal marks every printable
ASCII byte 0x20-0x7E except `'"'` and `'\'` as safe, and `init()` clears
`'"'`, `'\'`, the named control characters and every byte below 0x20 (all
already unfamiliar to the literal), leaving exactly this predicate. -/
def safeSet (c : Nat) : Bool := decide ((32 ≤ c ∧ c ≤ 126) ∧ c ≠ 34 ∧ c ≠ 92)

/-- Lowercase hex digit byte, as used by the pre-rendered `\u00XX` forms. -/
def hexDigit (d : Nat) : Nat := if d < 10 then 48 + d else 97 + (d - 10)

/-- The 32-entry `unicodeHex` table: entry `c` is the six bytes of
`\u00XX` with lowercase hex digits of `c` (`"\\u0000"` … `"\\u001f"`). -/
def unicodeHex (c : Nat) : List Nat := [92, 117, 48, 48, hexDigit (c / 16), hexDigit (c % 16)]

/-- `escapeStringToBytes(buf, c)` (lines 50-75): the seven named escapes
take precedence, remaining bytes below 32 get their `unicodeHex` form,
anything else is appended verbatim. -/
def escapeStringToBytes (buf : List Nat) (c : Nat) : List Nat :=
  if c = 34 then buf ++ [92, 34]
  else if c = 92 then buf ++ [92, 92]
  else if c = 8 then buf ++ [92, 98]
  else if c = 12 then buf ++ [92, 102]
  else if c = 10 then buf ++ [92, 110]
  else if c = 13 then buf ++ [92, 114]
  else if c = 9 then buf ++ [92, 116]
  else if c < 32 then buf ++ unicodeHex c
  else buf ++ [c]

/-- The scan loop of `stringEncoder.appendToBytes` (lines 92-116): `pending`
is the run `s[start:i]` not yet copied; an unsafe ASCII byte flushes the
run and emits its escape, everything else extends the run, and the final
run is flushed at the end.  The source advances past a non-ASCII lead byte
by its UTF-8 rune size without consulting `safeSet` for the continuation
bytes; those bytes are all ≥ 0x80 and any byte ≥ 0x80 lands in the pending
run regardless, so byte-at-a-time advancement appends the same bytes. -/
def stringEncodeLoop : List Nat → List Nat → List Nat → List Nat
  | buf, pending, [] => buf ++ pending
  | buf, pending, c :: rest =>
    if c < 128 then
      if safeSet c = false then stringEncodeLoop (escapeStringToBytes (buf ++ pending) c) [] rest
      else stringEncodeLoop buf (pending ++ [c]) rest
    else stringEncodeLoop buf (pending ++ [c]) rest

/-- `stringEncoder.appendToBytes` (lines 80-120): empty input appends the
`emptyString` literal; otherwise opening quote, the scan loop, closing
quote.  Always returns a nil error. -/
def stringEncoderAppend (buf : List Nat) (s : List Nat) : Except String (List Nat) :=
  if s = [] then .ok (buf ++ emptyString)
  else .ok (stringEncodeLoop (buf ++ [34]) [] s ++ [34])

/-- A Go `[]byte` source value: `nil` is distinct from an empty slice. -/
inductive ByteSliceSrc where
  | nil
  | val (b : List Nat)

/-- The scan loop of `byteSliceEncoder.appendToBytes` (lines 141-155): a
safe ASCII byte is appended, an unsafe ASCII byte is escaped, and a
non-ASCII sequence is copied verbatim (`b[i:i+size]`, byte-equal to
copying each byte ≥ 0x80 as it is reached). -/
def byteSliceLoop : List Nat → List Nat → List Nat
  | buf, [] => buf
  | buf, c :: rest =>
    if c < 128 then
      if safeSet c then byteSliceLoop (buf ++ [c]) rest
      else byteSliceLoop (escapeStringToBytes buf c) rest
    else byteSliceLoop (buf ++ [c]) rest

/-- `byteSliceEncoder.appendToBytes` (lines 126-159): nil slice appends the
null literal, empty slice the empty string literal, otherwise a quoted
escaped rendering.  Always returns a nil error. -/
def byteSliceEncoderAppend (buf : List Nat) (src : ByteSliceSrc) : Except String (List Nat) :=
  match src with
  | .nil => .ok (buf ++ nullString)
  | .val b =>
    if b = [] then .ok (buf ++ emptyString)
    else .ok (byteSliceLoop (buf ++ [34]) b ++ [34])

/-- Per-byte output of the two scan loops: the escape sequence for an
unsafe ASCII byte, the byte itself otherwise. -/
def escByte (c : Nat) : List Nat :=
  if c < 128 then
    if safeSet c = false then escapeStringToBytes [] c else [c]
  else [c]

/-- The escape sequence of a byte, as appended to an empty buffer. -/
def escChunk (c : Nat) : List Nat := escapeStringToBytes [] c

lemma escapeStringToBytes_append (buf : List Nat) (c : Nat) :
    escapeStringToBytes buf c = buf ++ escChunk c := by
  unfold escChunk escapeStringToBytes
  split_ifs <;> simp

lemma escByte_unsafe {c : Nat} (h1 : c < 128) (h2 : safeSet c = false) :
    escByte c = escChunk c := by
  simp [escByte, escChunk, h1, h2]

lemma stringEncodeLoop_eq (s : List Nat) : ∀ buf pending : List Nat,
    stringEncodeLoop buf pending s = buf ++ pending ++ s.flatMap escByte := by
  induction s with
  | nil => intro buf pending; simp [stringEncodeLoop]
  | cons c rest ih =>
    intro buf pending
    by_cases h1 : c < 128
    · by_cases h2 : safeSet c = false
      · simp only [stringEncodeLoop, if_pos h1, if_pos h2, List.flatMap_cons]
        rw [escapeStringToBytes_append, ih, escByte_unsafe h1 h2]
        simp
      · simp only [stringEncodeLoop, if_pos h1, if_neg h2, List.flatMap_cons]
        rw [ih]
        have hc : escByte c = [c] := by simp [escByte, h1, h2]
        simp [hc]
    · simp only [stringEncodeLoop, if_neg h1, List.flatMap_cons]
      rw [ih]
      have hc : escByte c = [c] := by simp [escByte, h1]
      simp [hc]

lemma byteSliceLoop_eq (s : List Nat) : ∀ buf : List Nat,
    byteSliceLoop buf s = buf ++ s.flatMap escByte := by
  induction s with
  | nil => intro buf; simp [byteSliceLoop]
  | cons c rest ih =>
    intro buf
    by_cases h1 : c < 128
    · by_cases h2 : safeSet c = true
      · simp only [byteSliceLoop, if_pos h1, if_pos h2, List.flatMap_cons]
        rw [ih]
        have hc : escByte c = [c] := by simp [escByte, h1, h2]
        simp [hc]
      · have h2f : safeSet c = false := by
          cases hsc : safeSet c
          · rfl
          · exact absurd hsc h2
        simp only [byteSliceLoop, if_pos h1, if_neg h2, List.flatMap_cons]
        rw [escapeStringToBytes_append, ih, escByte_unsafe h1 h2f]
        simp
    · simp only [byteSliceLoop, if_neg h1, List.flatMap_cons]
      rw [ih]
      have hc : escByte c = [c] := by simp [escByte, h1]
      simp [hc]

lemma escByte_of_safe {c : Nat} (h : safeSet c = true) : escByte c = [c] := by
  have h1 : c < 128 := by
    simp only [safeSet, decide_eq_true_eq] at h
    omega
  simp [escByte, h1, h]

lemma flatMap_escByte_of_safe :
    ∀ s : List Nat, (∀ c ∈ s, safeSet c = true) → s.flatMap escByte = s := by
  intro s hs
  induction s with
  | nil => simp
  | cons c rest ih =>
    simp only [List.flatMap_cons]
    rw [escByte_of_safe (hs c (by simp)), ih (fun d hd => hs d (by simp [hd]))]
    simp

lemma hexDigit_ge_48 (d : Nat) : 48 ≤ hexDigit d := by
  unfold hexDigit
  split <;> omega

lemma escByte_all_ge (c : Nat) : ∀ d ∈ escByte c, 32 ≤ d := by
  by_cases hc : c < 32
  · interval_cases c <;> decide
  · intro d hd
    by_cases h1 : c < 128
    · by_cases h2 : safeSet c = false
      · simp only [escByte, if_pos h1, if_pos h2] at hd
        unfold escapeStringToBytes at hd
        have h48a := hexDigit_ge_48 (c / 16)
        have h48b := hexDigit_ge_48 (c % 16)
        split_ifs at hd <;> first
          | (simp_all [unicodeHex]; omega)
          | simp_all [unicodeHex]
      · simp only [escByte, if_pos h1, if_neg h2] at hd
        have : d = c := List.mem_singleton.mp hd
        omega
    · simp only [escByte, if_neg h1] at hd
      have : d = c := List.mem_singleton.mp hd
      omega

/-! ### Claim C3 -/

/-- **C3** (confirmed): for every input byte sequence the string encoder
produces the opening quote, the per-byte image under `escByte`, and the
closing quote; `escByte` maps the seven named-escape bytes to their
two-byte escapes, maps every other byte below 32 to its pre-rendered
`\u00XX` form, and every unsafe byte's image starts with `'\'` and differs
from the raw byte; the escaped body contains no byte below 32 (so control
bytes, and — by the `escByte` decomposition — the quote and backslash,
appear only within escape sequences); an all-safe-ASCII input renders as
exactly the input wrapped in quotes; empty input renders as the
two-character empty string literal; the byte-slice encoder agrees. -/
theorem stringEscaping_spec (buf s : List Nat) :
    (s ≠ [] → stringEncoderAppend buf s = .ok (buf ++ [34] ++ s.flatMap escByte ++ [34]))
    ∧ stringEncoderAppend buf [] = .ok (buf ++ [34, 34])
    ∧ ((∀ c ∈ s, safeSet c = true) → stringEncoderAppend buf s = .ok (buf ++ [34] ++ s ++ [34]))
    ∧ (escByte 10 = [92, 110] ∧ escByte 9 = [92, 116] ∧ escByte 13 = [92, 114]
        ∧ escByte 8 = [92, 98] ∧ escByte 12 = [92, 102] ∧ escByte 34 = [92, 34]
        ∧ escByte 92 = [92, 92])
    ∧ (∀ c, c < 32 → c ≠ 8 → c ≠ 9 → c ≠ 10 → c ≠ 12 → c ≠ 13 →
        escByte c = [92, 117, 48, 48, hexDigit (c / 16), hexDigit (c % 16)])
    ∧ (∀ c, c < 32 ∨ c = 34 ∨ c = 92 → (escByte c).headD 0 = 92 ∧ escByte c ≠ [c])
    ∧ (∀ d ∈ s.flatMap escByte, 32 ≤ d)
    ∧ (s ≠ [] →
        byteSliceEncoderAppend buf (.val s) = .ok (buf ++ [34] ++ s.flatMap escByte ++ [34]))
    ∧ byteSliceEncoderAppend buf (.val []) = .ok (buf ++ [34, 34]) := by
  refine ⟨?_, ?_, ?_, ?_, ?_, ?_, ?_, ?_, ?_⟩
  · intro h
    simp [stringEncoderAppend, h, stringEncodeLoop_eq]
  · simp [stringEncoderAppend, emptyString]
  · intro h
    rcases eq_or_ne s [] with hs | hs
    · subst hs
      simp [stringEncoderAppend, emptyString]
    · simp [stringEncoderAppend, hs, stringEncodeLoop_eq, flatMap_escByte_of_safe s h]
  · refine ⟨by decide, by decide, by decide, by decide, by decide, by decide, by decide⟩
  · intro c hc h8 h9 h10 h12 h13
    interval_cases c <;> simp_all <;> decide
  · intro c hc
    rcases hc with hc | hc | hc
    · interval_cases c <;> decide
    · subst hc; decide
    · subst hc; decide
  · intro d hd
    rw [List.mem_flatMap] at hd
    obtain ⟨c, _, hdc⟩ := hd
    exact escByte_all_ge c d hdc
  · intro h
    simp [byteSliceEncoderAppend, h, byteSliceLoop_eq]
  · simp [byteSliceEncoderAppend, emptyString]

/-- Witness for C3: the all-safe input `"hi"` renders as `"\x22hi\x22"`. -/
theorem stringEscaping_spec_witness :
    stringEncoderAppend [] [104, 105] = .ok [34, 104, 105, 34] :=
  (stringEscaping_spec [] [104, 105]).2.2.1 (by decide)

/-! ### Struct encoder (src/sjson_encode_struct.go)

A `structField` descriptor paired with the encode-time data of the field
it addresses: `name` is the cached pre-quoted field name, `omitempty` the
cached tag flag, `isEmpty` the value of `isEmptyValue(src.Field(index))`
(that helper lives outside `src/`; the flag abstracts its verdict), and
`encOut` the bytes the field's cached encoder appends for this value (or
its error).  The buffer-size estimation step of the source only grows
capacity and never changes appended content, so the content-level model
omits it. -/

structure EncField where
  name : List Nat
  omitempty : Bool
  isEmpty : Bool
  encOut : Except String (List Nat)

/-- A field is skipped exactly when it is omitempty and empty. -/
def keptField (f : EncField) : Bool := !(f.omitempty && f.isEmpty)

/-- `'"' + name + '"' + ':'` as written before each field value. -/
def fieldHeader (f : EncField) : List Nat := [34] ++ f.name ++ [34, 58]

/-- The bytes the field's encoder appends (meaningful when it succeeds). -/
def fieldOut (f : EncField) : List Nat :=
  match f.encOut with
  | .ok c => c
  | .error _ => []

/-- One rendered `"name":value` member. -/
def renderField (f : EncField) : List Nat := fieldHeader f ++ fieldOut f

/-- Comma-joined object members (reference rendering for the claims). -/
def joinComma : List (List Nat) → List Nat
  | [] => []
  | [x] => x
  | x :: y :: rest => x ++ 44 :: joinComma (y :: rest)

/-- `structEncoder.encodeSingleField` (lines 75-98): omitempty check
first, then name, value, closing brace. -/
def encodeSingleField (buf : List Nat) (f : EncField) : Except String (List Nat) :=
  if f.omitempty && f.isEmpty then .ok (buf ++ [125])
  else
    match f.encOut with
    | .error e => .error e
    | .ok c => .ok (buf ++ fieldHeader f ++ c ++ [125])

/-- `structEncoder.encodeFieldsFast` (lines 101-123): comma before every
field except the first (`i > 0`, carried as the `first` flag), no
emptiness checks. -/
def encodeFieldsFast : List Nat → Bool → List EncField → Except String (List Nat)
  | buf, _, [] => .ok (buf ++ [125])
  | buf, first, f :: rest =>
    let buf1 := (if first then buf else buf ++ [44]) ++ fieldHeader f
    match f.encOut with
    | .error e => .error e
    | .ok c => encodeFieldsFast (buf1 ++ c) false rest

/-- `structEncoder.encodeFieldsWithOmitEmpty` (lines 126-157): skip
empty omittable fields, `firstField` flag for comma placement. -/
def encodeFieldsWithOmitEmpty : List Nat → Bool → List EncField → Except String (List Nat)
  | buf, _, [] => .ok (buf ++ [125])
  | buf, first, f :: rest =>
    if f.omitempty && f.isEmpty then encodeFieldsWithOmitEmpty buf first rest
    else
      let buf1 := (if first then buf else buf ++ [44]) ++ fieldHeader f
      match f.encOut with
      | .error e => .error e
      | .ok c => encodeFieldsWithOmitEmpty (buf1 ++ c) false rest

/-- The struct value reaching `structEncoder.appendToBytes`: a nil
pointer, or the (possibly pointer-dereferenced) struct presented as its
fields' encode-time data in declaration order. -/
inductive StructSrc where
  | nilPtr
  | value (fields : List EncField)

/-- `structEncoder.appendToBytes` (lines 24-61): nil pointer renders the
null literal; otherwise `'\x7b'`, then dispatch on the field count — zero
fields close immediately, one field takes the single-field path, several
fields take the omitempty-aware loop exactly when some field is tagged
omitempty (the cached `hasOmitEmpty` flag), else the fast loop. -/
def structAppendToBytes (buf : List Nat) (src : StructSrc) : Except String (List Nat) :=
  match src with
  | .nilPtr => .ok (buf ++ nullString)
  | .value fields =>
    let buf1 := buf ++ [123]
    match fields with
    | [] => .ok (buf1 ++ [125])
    | [f] => encodeSingleField buf1 f
    | _ :: _ :: _ =>
      if fields.any (fun f => f.omitempty) then encodeFieldsWithOmitEmpty buf1 true fields
      else encodeFieldsFast buf1 true fields

/-- Leading comma emitted before the first kept member when the
`firstField` flag is already down. -/
def leadComma (first : Bool) (kept : List EncField) : List Nat :=
  match first, kept with
  | true, _ => []
  | false, [] => []
  | false, _ :: _ => [44]

lemma leadComma_true (kept : List EncField) : leadComma true kept = [] := by
  cases kept <;> rfl

lemma leadComma_nil (first : Bool) : leadComma first [] = [] := by
  cases first <;> rfl

lemma joinComma_cons (x : List Nat) (l : List (List Nat)) :
    joinComma (x :: l) = x ++ (if l = [] then [] else 44 :: joinComma l) := by
  cases l <;> simp [joinComma]

lemma encodeFieldsWithOmitEmpty_ok (fields : List EncField) :
    ∀ (buf : List Nat) (first : Bool),
      (∀ f ∈ fields, keptField f = true → ∃ c, f.encOut = Except.ok c) →
      encodeFieldsWithOmitEmpty buf first fields =
        .ok (buf ++ leadComma first (fields.filter keptField)
              ++ joinComma ((fields.filter keptField).map renderField) ++ [125]) := by
  induction fields with
  | nil =>
    intro buf first h
    simp [encodeFieldsWithOmitEmpty, leadComma_nil, joinComma]
  | cons f rest ih =>
    intro buf first h
    by_cases hk : (f.omitempty && f.isEmpty) = true
    · have hkf : keptField f = false := by simp [keptField, hk]
      simp only [encodeFieldsWithOmitEmpty, if_pos hk]
      rw [ih buf first (fun g hg hgk => h g (List.mem_cons_of_mem f hg) hgk)]
      simp [List.filter_cons, hkf]
    · have hkf : keptField f = true := by
        simp only [keptField, Bool.not_eq_true] at hk ⊢
        simp [hk]
      obtain ⟨c, hc⟩ := h f (List.mem_cons_self f rest) hkf
      simp only [encodeFieldsWithOmitEmpty, if_neg hk, hc]
      rw [ih _ false (fun g hg hgk => h g (List.mem_cons_of_mem f hg) hgk)]
      have hfc : (f :: rest).filter keptField = f :: rest.filter keptField := by
        simp [List.filter_cons, hkf]
      rw [hfc, List.map_cons, joinComma_cons]
      rcases hrest : rest.filter keptField with _ | ⟨x, xs⟩ <;> cases first <;>
        simp [hrest, leadComma, renderField, fieldOut, hc, fieldHeader, joinComma]

lemma structAppend_value_ok (fields : List EncField)
    (hok : ∀ f ∈ fields, keptField f = true → ∃ c, f.encOut = Except.ok c)
    (hsome : fields.any (fun f => f.omitempty) = true) (buf : List Nat) :
    structAppendToBytes buf (.value fields) =
      .ok (buf ++ [123] ++ joinComma ((fields.filter keptField).map renderField) ++ [125]) := by
  rcases fields with _ | ⟨f, _ | ⟨f2, rest⟩⟩
  · simp at hsome
  · by_cases hk : (f.omitempty && f.isEmpty) = true
    · have hkf : keptField f = false := by simp [keptField, hk]
      simp [structAppendToBytes, encodeSingleField, hk, List.filter_cons, hkf, joinComma]
    · have hkf : keptField f = true := by
        simp only [keptField, Bool.not_eq_true] at hk ⊢
        simp [hk]
      obtain ⟨c, hc⟩ := hok f (List.mem_cons_self f []) hkf
      simp [structAppendToBytes, encodeSingleField, hk, hc, List.filter_cons, hkf,
        joinComma, renderField, fieldOut, fieldHeader]
  · simp only [structAppendToBytes, if_pos hsome]
    rw [encodeFieldsWithOmitEmpty_ok _ _ _ hok]
    simp [leadComma_true]

/-! ### Claim C4 -/

/-- **C4** (confirmed): a struct whose field list is `pre ++ [fk] ++ post`,
where exactly `fk` is zero-valued-and-omitempty (every field of `pre` and
`post` is kept) and every kept field's encoder succeeds, renders as the
object of exactly the other fields' members in declaration order, joined
by single commas; a struct all of whose fields are empty and omittable
renders as `\x7b\x7d`, and a struct with zero fields renders as
`\x7b\x7d`. -/
theorem structOmitEmpty_spec (pre post : List EncField) (fk : EncField) (buf : List Nat)
    (hfk : fk.omitempty = true ∧ fk.isEmpty = true)
    (hothers : ∀ f ∈ pre ++ post, keptField f = true)
    (hok : ∀ f ∈ pre ++ fk :: post, keptField f = true → ∃ c, f.encOut = Except.ok c) :
    (structAppendToBytes buf (.value (pre ++ fk :: post)) =
      .ok (buf ++ [123] ++ joinComma ((pre ++ post).map renderField) ++ [125]))
    ∧ (∀ fields : List EncField, (∀ f ∈ fields, f.omitempty = true ∧ f.isEmpty = true) →
        structAppendToBytes buf (.value fields) = .ok (buf ++ [123, 125]))
    ∧ structAppendToBytes buf (.value []) = .ok (buf ++ [123, 125]) := by
  refine ⟨?_, ?_, ?_⟩
  · have hkfk : keptField fk = false := by simp [keptField, hfk.1, hfk.2]
    have hany : (pre ++ fk :: post).any (fun f => f.omitempty) = true :=
      List.any_eq_true.mpr ⟨fk, by simp, by simp [hfk.1]⟩
    have hfilter : (pre ++ fk :: post).filter keptField = pre ++ post := by
      rw [List.filter_append, List.filter_cons]
      rw [List.filter_eq_self.mpr (fun f hf => hothers f (List.mem_append_left post hf))]
      rw [List.filter_eq_self.mpr (fun f hf => hothers f (List.mem_append_right pre hf))]
      simp [hkfk]
    rw [structAppend_value_ok _ hok hany buf, hfilter]
  · intro fields hall
    have hok2 : ∀ f ∈ fields, keptField f = true → ∃ c, f.encOut = Except.ok c := by
      intro f hf hkf
      have := hall f hf
      simp [keptField, this.1, this.2] at hkf
    rcases fields with _ | ⟨f, rest⟩
    · simp [structAppendToBytes]
    · have hany : (f :: rest).any (fun g => g.omitempty) = true :=
        List.any_eq_true.mpr ⟨f, by simp, by simp [(hall f (by simp)).1]⟩
      have hfilter : (f :: rest).filter keptField = [] := by
        rw [List.filter_eq_nil_iff]
        intro g hg
        have := hall g hg
        simp [keptField, this.1, this.2]
      rw [structAppend_value_ok _ hok2 hany buf, hfilter]
      simp [joinComma]
  · simp [structAppendToBytes]

/-- Witness for C4: a three-field struct `{a: 1, b: omitted, c: 2}` where
only `b` is empty-and-omitempty renders with exactly the other two keys. -/
theorem structOmitEmpty_spec_witness :
    structAppendToBytes []
        (.value [⟨[97], false, false, .ok [49]⟩, ⟨[98], true, true, .ok []⟩,
          ⟨[99], false, true, .ok [50]⟩]) =
      .ok [123, 34, 97, 34, 58, 49, 44, 34, 99, 34, 58, 50, 125] := by
  have h := (structOmitEmpty_spec [⟨[97], false, false, .ok [49]⟩]
    [⟨[99], false, true, .ok [50]⟩] ⟨[98], true, true, .ok []⟩ []
    (by exact ⟨rfl, rfl⟩)
    (by
      intro f hf
      rcases List.mem_append.mp hf with h1 | h1 <;>
        rw [List.mem_singleton.mp h1] <;> rfl)
    (by
      intro f hf _
      rcases List.mem_append.mp hf with h1 | h1
      · rw [List.mem_singleton.mp h1]
        exact ⟨[49], rfl⟩
      · rcases List.mem_cons.mp h1 with h2 | h2
        · rw [h2]
          exact ⟨[], rfl⟩
        · rw [List.mem_singleton.mp h2]
          exact ⟨[50], rfl⟩)).1
  simpa using h

/-! ### Claim C6 -/

/-- **C6** (confirmed): a nil pointer at the struct encoder's root and a
nil byte slice each append exactly the 4-byte `null` literal and report
no error. -/
theorem nil_renders_null (buf : List Nat) :
    structAppendToBytes buf .nilPtr = .ok (buf ++ nullString)
    ∧ byteSliceEncoderAppend buf .nil = .ok (buf ++ nullString)
    ∧ nullString = [110, 117, 108, 108]
    ∧ nullString.length = 4 := by
  exact ⟨rfl, rfl, rfl, rfl⟩

/-! ### Buffer stream and pool (src/unnamed/part_001 lines 9-80)

A Go byte-slice value is modelled as its backing-array identity (to track
aliasing), its content (the `len(b)` prefix) and its capacity. -/

structure GoSlice where
  allocId : Nat
  data : List Nat
  cap : Nat

/-- The pooled stream object: owns one buffer. -/
structure EncStream where
  buffer : GoSlice

/-- The pool's `New` function: `make([]byte, 0, 2048)`. -/
def encoderStreamPoolNew : EncStream := ⟨⟨0, [], 2048⟩⟩

/-- `releaseEncoderStream` (lines 28-36): a buffer whose capacity exceeds
8192 is replaced by a fresh `make([]byte, 0, 2048)` (a new backing array;
its identity is modelled as a fresh successor id), otherwise the same
buffer is truncated to length zero (`stream.buffer[:0]`), keeping its
capacity; the stream is then put back into the pool. -/
def releaseEncoderStream (s : EncStream) : EncStream :=
  if 8192 < s.buffer.cap then ⟨⟨s.buffer.allocId + 1, [], 2048⟩⟩
  else ⟨⟨s.buffer.allocId, [], s.buffer.cap⟩⟩

/-! ### Claim C9 -/

/-- **C9** (confirmed): `releaseEncoderStream` always puts back a stream
whose buffer has length zero; a capacity above the 8192 high-water mark is
replaced by the default 2048, otherwise the capacity is retained — hence
every released buffer (and the pool's `New` buffer) has length 0 and
capacity at most 8192. -/
theorem releaseEncoderStream_invariant (s : EncStream) :
    (releaseEncoderStream s).buffer.data = []
    ∧ (releaseEncoderStream s).buffer.cap ≤ 8192
    ∧ (s.buffer.cap ≤ 8192 → (releaseEncoderStream s).buffer.cap = s.buffer.cap)
    ∧ (8192 < s.buffer.cap → (releaseEncoderStream s).buffer.cap = 2048)
    ∧ encoderStreamPoolNew.buffer.data = [] ∧ encoderStreamPoolNew.buffer.cap ≤ 8192 := by
  unfold releaseEncoderStream
  split_ifs with h
  · refine ⟨rfl, ?_, fun h2 => absurd h2 (by omega), fun _ => rfl, rfl, by decide⟩
    show (2048 : Nat) ≤ 8192
    decide
  · refine ⟨rfl, ?_, fun _ => rfl, fun h2 => absurd h2 h, rfl, by decide⟩
    show s.buffer.cap ≤ 8192
    omega

/-- Witness for C9: a 9000-capacity buffer is replaced by the 2048
default, a 100-capacity buffer keeps its capacity. -/
theorem releaseEncoderStream_invariant_witness :
    (releaseEncoderStream ⟨⟨0, [1, 2], 9000⟩⟩).buffer.cap = 2048
    ∧ (releaseEncoderStream ⟨⟨0, [1], 100⟩⟩).buffer.cap = 100 :=
  ⟨(releaseEncoderStream_invariant ⟨⟨0, [1, 2], 9000⟩⟩).2.2.2.1 (by decide),
   (releaseEncoderStream_invariant ⟨⟨0, [1], 100⟩⟩).2.2.1 (by decide)⟩

/-! ### Marshal (src/unnamed/part_001 lines 66-80)

`encodeValueToBytes` (the root dispatch, recursively the encoders above)
is abstracted as a function from the acquired stream buffer to the error
it returns and the buffer state it leaves behind.  `Marshal` is modelled
with the deferred release explicit in both return paths, and the final
`append([]byte(nil), stream.buffer...)` as a copy into a fresh backing
array whose identity `freshId` is supplied by the allocator (fresh, hence
distinct from the pooled buffer's identity). -/

/-- `Marshal`: run the root encode, return `(output, error, released stream)`.
On error: nil output, the encoder's error, deferred release still runs.
On success: a fresh full copy of the final buffer content, no error,
deferred release still runs. -/
def marshalModel (enc : GoSlice → Option String × GoSlice) (stream0 : EncStream)
    (freshId : Nat) : Option GoSlice × Option String × EncStream :=
  let r := enc stream0.buffer
  match r.1 with
  | some e => (none, some e, releaseEncoderStream ⟨r.2⟩)
  | none => (some ⟨freshId, r.2.data, r.2.data.length⟩, none, releaseEncoderStream ⟨r.2⟩)

/-! ### Claim C8 -/

/-- **C8** (confirmed): `Marshal` releases the stream unconditionally (the
released stream is `releaseEncoderStream` of the post-encode stream in
both the success and the error path), returns nil output together with
the encoder's (first) error whenever encoding fails, and on success
returns a copy of the final content in a freshly allocated buffer that
does not alias the pooled stream buffer. -/
theorem marshal_release_and_copy (enc : GoSlice → Option String × GoSlice)
    (stream0 : EncStream) (freshId : Nat)
    (hfresh : freshId ≠ (enc stream0.buffer).2.allocId) :
    ((marshalModel enc stream0 freshId).2.2 = releaseEncoderStream ⟨(enc stream0.buffer).2⟩)
    ∧ (∀ e, (enc stream0.buffer).1 = some e →
        (marshalModel enc stream0 freshId).1 = none
          ∧ (marshalModel enc stream0 freshId).2.1 = some e)
    ∧ ((enc stream0.buffer).1 = none →
        ∃ out, (marshalModel enc stream0 freshId).1 = some out
          ∧ out.data = (enc stream0.buffer).2.data
          ∧ out.allocId ≠ (enc stream0.buffer).2.allocId) := by
  unfold marshalModel
  rcases herr : (enc stream0.buffer).1 with _ | e
  · refine ⟨by simp [herr], fun e he => by simp [herr] at he, fun _ => ?_⟩
    exact ⟨⟨freshId, (enc stream0.buffer).2.data, (enc stream0.buffer).2.data.length⟩,
      by simp [herr], rfl, hfresh⟩
  · refine ⟨by simp [herr], fun d hd => ?_, fun hnone => by simp [herr] at hnone⟩
    have hed : e = d := Option.some_injective _ (by simpa [herr] using hd)
    subst hed
    exact ⟨by simp [herr], by simp [herr]⟩

/-- Witness for C8: with an encoder that appends `'1'` and succeeds, the
output is a fresh copy and the stream is released. -/
theorem marshal_release_and_copy_witness :
    ∃ out, (marshalModel (fun b => (none, ⟨b.allocId, b.data ++ [49], b.cap⟩))
        ⟨⟨0, [], 4⟩⟩ 7).1 = some out
      ∧ out.data = [49] ∧ out.allocId ≠ 0 :=
  (marshal_release_and_copy (fun b => (none, ⟨b.allocId, b.data ++ [49], b.cap⟩))
    ⟨⟨0, [], 4⟩⟩ 7 (by decide)).2.2 rfl

/-! ### Leaf encoders (src/unnamed/part_001 lines 100-197) -/

/-- `nullEncoder.appendToBytes`: appends the null literal, returns nil. -/
def nullEncoderAppend (buf : List Nat) : Except String (List Nat) :=
  .ok (buf ++ nullString)

/-- `boolEncoder.appendToBytes`: appends the true/false literal, returns nil. -/
def boolEncoderAppend (buf : List Nat) (b : Bool) : Except String (List Nat) :=
  if b then .ok (buf ++ trueString) else .ok (buf ++ falseString)

/-- `intEncoder.appendToBytes`: `appendInt(buffer, src.Int(), 10)`, returns nil. -/
def intEncoderAppend (buf : List Nat) (i : Int) : Except String (List Nat) :=
  .ok (appendInt buf i 10)

/-- `uintEncoder.appendToBytes`: `appendUint(buffer, src.Uint(), 10)`, returns nil. -/
def uintEncoderAppend (buf : List Nat) (u : Nat) : Except String (List Nat) :=
  .ok (appendUint buf u 10)

/-- `appendFloat32` (lines 160-171): the integral-in-range test
`f == float32(int32(f)) && -2147483648 <= f <= 2147483647` and the
6-significant-digit `strconv.AppendFloat` rendering are IEEE-754
operations abstracted as oracle inputs (`isIntegral`, the integer image
`asInt`, the formatted bytes `gBytes`); both branches of the source
return a nil error, which is the fact settled through this model. -/
def appendFloat32Model (isIntegral : Bool) (asInt : Int) (gBytes : List Nat)
    (buf : List Nat) : Except String (List Nat) :=
  if isIntegral then .ok (appendInt buf asInt 10) else .ok (buf ++ gBytes)

/-- `appendFloat64` (lines 174-184): same shape as `appendFloat32` with
the `int64` range; both branches return a nil error. -/
def appendFloat64Model (isIntegral : Bool) (asInt : Int) (gBytes : List Nat)
    (buf : List Nat) : Except String (List Nat) :=
  if isIntegral then .ok (appendInt buf asInt 10) else .ok (buf ++ gBytes)

/-- `defaultEncoder.appendToBytes`: delegates to the string encoder. -/
def defaultEncoderAppend (buf : List Nat) (s : List Nat) : Except String (List Nat) :=
  stringEncoderAppend buf s

/-- `noSupportEncoder.appendToBytes`: always the unsupported-map-key
error naming the offending type. -/
def noSupportEncoderAppend (typeName : String) : Except String (List Nat) :=
  .error ("unsupported map key type: " ++ typeName)

/-! ### Claim C10 -/

/-- **C10** (confirmed): every leaf encoder in scope — null, bool,
signed-int, unsigned-int, float32, float64, string, byte-slice, and the
fallback-to-string default — returns a nil error on every input of its
kind; among the provided encoders only `noSupportEncoder` produces an
error. -/
theorem leafEncoders_never_error :
    (∀ buf, (nullEncoderAppend buf).isOk = true)
    ∧ (∀ buf b, (boolEncoderAppend buf b).isOk = true)
    ∧ (∀ buf i, (intEncoderAppend buf i).isOk = true)
    ∧ (∀ buf u, (uintEncoderAppend buf u).isOk = true)
    ∧ (∀ o a g buf, (appendFloat32Model o a g buf).isOk = true)
    ∧ (∀ o a g buf, (appendFloat64Model o a g buf).isOk = true)
    ∧ (∀ buf s, (stringEncoderAppend buf s).isOk = true)
    ∧ (∀ buf src, (byteSliceEncoderAppend buf src).isOk = true)
    ∧ (∀ buf s, (defaultEncoderAppend buf s).isOk = true)
    ∧ (∀ t, (noSupportEncoderAppend t).isOk = false) := by
  refine ⟨fun buf => rfl, ?_, fun buf i => rfl, fun buf u => rfl, ?_, ?_, ?_, ?_, ?_, fun t => rfl⟩
  · intro buf b
    cases b <;> rfl
  · intro o a g buf
    unfold appendFloat32Model
    split <;> rfl
  · intro o a g buf
    unfold appendFloat64Model
    split <;> rfl
  · intro buf s
    unfold stringEncoderAppend
    split <;> rfl
  · intro buf src
    cases src with
    | nil => rfl
    | val b =>
      show (if b = [] then _ else _ : Except String (List Nat)).isOk = true
      split <;> rfl
  · intro buf s
    unfold defaultEncoderAppend stringEncoderAppend
    split <;> rfl

end SJson
